import Mathlib

/-!
Shallow embedding of the DNS policy resolution engine of the
cloud-self-service-api repository: the rule store CRUD surface
(`internal/storage/storage.go`), the webhook entry point
(`internal/routes/routes_webhook.go`) and the DNS-policy configuration
(`internal/config/app_config.go`), together with the matcher, renderer and
claim types that the specification describes but whose source files are not
part of the excerpt.
-/

namespace CloudAPI

/-- Model of `storage.PolicyRule` (storage.go).  `int64` ids are modelled as
`Int` and `time.Time` is abstracted as an integer timestamp. -/
structure PolicyRule where
  id : Int
  zonePattern : String
  zoneSoa : String
  targetUserFilter : String
  description : String
  createdAt : Int
  deriving Repr, DecidableEq

/-- Modelled from the spec: `auth.UserClaims` is not part of the source excerpt; §3 gives
Identity Claims with `email` as the primary matching key (other claims are
carried along unread and never consulted by the engine). -/
structure UserClaims where
  email : String
  deriving Repr, DecidableEq

/-- Modelled from the spec: `routes.ZoneResponse` is not part of the source excerpt; §3
gives the Zone Response as the pair of the rendered `zone` and the rule's
`zoneSoa`. -/
structure ZoneResponse where
  zone : String
  zoneSoa : String
  deriving Repr, DecidableEq

/-- Modelled from the spec: the glob matcher used by `listUserRules` is not
part of the source excerpt.  Per §4.1/§9: `*` matches any run of characters, every other
character matches itself, case-sensitively, and the whole email must match
the whole pattern.  The recursion is indexed by fuel so that it is
structural; `globMatch` below supplies sufficient fuel. -/
def globMatchFuel : Nat → List Char → List Char → Bool
  | 0, _, _ => false
  | _ + 1, [], t => t.isEmpty
  | n + 1, p :: ps, [] => if p = '*' then globMatchFuel n ps [] else false
  | n + 1, p :: ps, c :: cs =>
    if p = '*' then globMatchFuel n ps (c :: cs) || globMatchFuel n (p :: ps) cs
    else (p == c) && globMatchFuel n ps cs

/-- Case-sensitive anchored glob match of an email against a filter. -/
def globMatch (g e : String) : Bool :=
  globMatchFuel (g.data.length + e.data.length + 1) g.data e.data

/-- Glob semantics exactly as worded in the spec: the empty pattern matches
only the empty string, a non-`*` character matches itself (case-sensitively),
and `*` matches any run of characters; matching is anchored at both ends. -/
inductive GlobSem : List Char → List Char → Prop where
  | nil : GlobSem [] []
  | lit {c : Char} {p s : List Char} : c ≠ '*' → GlobSem p s → GlobSem (c :: p) (c :: s)
  | star {p s u v : List Char} : s = u ++ v → GlobSem p v → GlobSem ('*' :: p) s

/-- Model of Go `strings.ReplaceAll` restricted to a non-empty pattern:
replace non-overlapping occurrences left to right.  Fuel-indexed (with the
length of the subject list as fuel) so the recursion is structural. -/
def replaceAllAux (pat repl : List Char) : Nat → List Char → List Char
  | 0, l => l
  | _ + 1, [] => []
  | n + 1, c :: cs =>
    if pat.isPrefixOf (c :: cs) ∧ pat ≠ [] then
      repl ++ replaceAllAux pat repl n (List.drop (pat.length - 1) cs)
    else
      c :: replaceAllAux pat repl n cs

/-- Go `strings.ReplaceAll s old new` on strings. -/
def replaceAllString (s old new : String) : String :=
  ⟨replaceAllAux old.data new.data s.data.length s.data⟩

/-- Modelled from the spec: `helper.DnsMakeCompliant`'s per-character rule.
§4.2: lower-case, keep characters in `[a-z0-9-]`, replace everything else
with `-`. -/
def dnsLabelChar (c : Char) : Char :=
  let lc := c.toLower
  if ('a' ≤ lc ∧ lc ≤ 'z') ∨ ('0' ≤ lc ∧ lc ≤ '9') ∨ lc = '-' then lc else '-'

/-- Modelled from the spec: `helper.DnsMakeCompliant` is not part of the source excerpt.
§4.2: lower-case the email and replace every character outside `[a-z0-9-]`
with `-`, in a single pass with no collapsing; truncation for over-long
tokens is left unspecified by §9 and therefore not modelled. -/
def DnsMakeCompliant (email : String) : String :=
  ⟨email.data.map dnsLabelChar⟩

/-- The rule table together with a flag modelling whether the underlying
database call fails (`result.Error != nil` in storage.go). -/
structure StoreState where
  rows : List PolicyRule
  dbFails : Bool
  deriving Repr, DecidableEq

/-- The `ORDER BY id ASC` ordering used by `PolicyGetAll`. -/
def sortRules (rows : List PolicyRule) : List PolicyRule :=
  List.insertionSort (fun a b => a.id ≤ b.id) rows

/-- Model of `storage.PolicyGetAll` (storage.go): read the whole table
ordered ascending by id; a failing read returns the wrapped error instead
of a rule list. -/
def PolicyGetAll (s : StoreState) : Except String (List PolicyRule) :=
  if s.dbFails then .error "storage.GetAll: Failed to retrieve rules"
  else .ok (sortRules s.rows)

/-- The column update performed by `storage.PolicyUpdate`'s
`Select("ZonePattern", "TargetUserFilter", "Description").Updates(rule)` on
one row: only the three selected columns change, and only on the row whose
primary key equals `rule.ID`. -/
def applyPolicyUpdate (rule row : PolicyRule) : PolicyRule :=
  if row.id = rule.id then
    { row with
        zonePattern := rule.zonePattern,
        targetUserFilter := rule.targetUserFilter,
        description := rule.description }
  else row

/-- Model of `storage.PolicyUpdate` (storage.go): update the selected
columns of the row carrying the rule's primary key; when the id is absent
the `gorm.ErrRecordNotFound` path is taken.  The source returns the
caller's `rule` object itself, which is modelled faithfully. -/
def PolicyUpdate (s : StoreState) (rule : PolicyRule) :
    Except String (StoreState × PolicyRule) :=
  if s.dbFails then .error "storage.Update: Failed to update rule"
  else if s.rows.any (fun row => row.id = rule.id) then
    .ok ({ s with rows := s.rows.map (applyPolicyUpdate rule) }, rule)
  else .error "record not found"

/-- Model of Go `strings.CutPrefix s pre`: the part of `s` after `pre` when
`pre` leads `s`, and `none` otherwise. -/
def cutPre (s pre : String) : Option String :=
  if pre.data.isPrefixOf s.data then some ⟨s.data.drop pre.data.length⟩ else none

/-- Model of `verifyApiKey` (routes_webhook.go): cut the `"Bearer "` prefix
from the Authorization header and compare the remainder with the configured
key; the result is the error message on failure and `none` on success. -/
def verifyApiKey (authHeader apiKey : String) : Option String :=
  match cutPre authHeader "Bearer " with
  | none => some "missing or invalid Authorization Bearer header"
  | some tokenString =>
    if tokenString ≠ apiKey then some "invalid API key provided in Authorization header"
    else none

/-- Modelled from the spec: `listUserRules` is not part of the source excerpt (only its
call site in `webhookFunc` is in the excerpt).  §4.1: read all rules fresh from the store;
a rule matches when its `targetUserFilter` glob-matches the email or the
super-admin flag is set; a store failure propagates instead of being read
as an empty rule set. -/
def listUserRules (store : StoreState) (claims : UserClaims)
    (is_super_admin : Bool) : Except String (List PolicyRule) :=
  match PolicyGetAll store with
  | .error e => .error e
  | .ok rules =>
      .ok (rules.filter (fun rule =>
        is_super_admin || globMatch rule.targetUserFilter claims.email))

/-- Model of `config.DnsPolicyConfig` (app_config.go); the super-admin
email set is modelled as a list queried by membership. -/
structure DnsPolicyConfig where
  superAdminEmails : List String
  webhookApiKey : String
  deriving Repr, DecidableEq

/-- Modelled from the spec: §3, `isSuperAdmin` is true exactly when the
email is a member of the configured super-admin set. -/
def isSuperAdmin (cfg : DnsPolicyConfig) (email : String) : Bool :=
  cfg.superAdminEmails.contains email

/-- Modelled from the spec: §4.1's match operation over a claims value,
deriving the super-admin flag from the configuration. -/
def matchRules (cfg : DnsPolicyConfig) (store : StoreState)
    (claims : UserClaims) : Except String (List PolicyRule) :=
  listUserRules store claims (isSuperAdmin cfg claims.email)

/-- The parts of the HTTP request that `webhookFunc` reads: the
Authorization header (`none` when absent, in which case `c.GetHeader`
yields `""`) and the JSON body (`none` models a body rejected by
`ShouldBindJSON`). -/
structure WebhookRequest where
  authHeader : Option String
  body : Option UserClaims
  deriving Repr, DecidableEq

/-- The observable HTTP response: status code, the `{"error": ...}` payload
when one is sent, and the zone list payload when one is sent. -/
structure HttpResponse where
  status : Nat
  errorMsg : Option String
  zones : Option (List ZoneResponse)
  deriving Repr, DecidableEq

/-- The loop body of `webhookFunc` (routes_webhook.go lines 73-79): render
one matched rule into a Zone Response. -/
def renderZone (userDnsLabel : String) (rule : PolicyRule) : ZoneResponse :=
  { zone := replaceAllString rule.zonePattern "%u" userDnsLabel
    zoneSoa := rule.zoneSoa }

/-- Model of `webhookFunc` (routes_webhook.go): verify the API key, bind
the claims body, call `listUserRules` with `is_super_admin` hard-coded to
`false`, and render each returned rule into the 200 response. -/
def webhookFunc (webhookApiKey : String) (store : StoreState)
    (req : WebhookRequest) : HttpResponse :=
  match verifyApiKey (req.authHeader.getD "") webhookApiKey with
  | some errMsg => { status := 401, errorMsg := some errMsg, zones := none }
  | none =>
    match req.body with
    | none => { status := 400, errorMsg := some "invalid request body", zones := none }
    | some userClaimsReq =>
      match listUserRules store userClaimsReq false with
      | .error _ =>
          { status := 500, errorMsg := some "Failed to retrieve rules", zones := none }
      | .ok rules =>
          let userDnsLabel := DnsMakeCompliant userClaimsReq.email
          { status := 200, errorMsg := none,
            zones := some (rules.map (renderZone userDnsLabel)) }

/-- Modelled from the spec: `helper.GetEnvString` is not part of the source excerpt; it
returns the environment variable's value, or the default when unset.  The
environment maps names to optional values. -/
def GetEnvString (env : String → Option String) (name dflt : String) : String :=
  (env name).getD dflt

/-- Modelled from the spec: `helper.GetEnvStringSet` is not part of the source excerpt;
it returns the default set when the variable is unset and otherwise the
value split on the separator (entries trimmed when the flag is set). -/
def GetEnvStringSet (env : String → Option String) (name : String)
    (dflt : List String) (sep : String) (trim : Bool) : List String :=
  match env name with
  | none => dflt
  | some s => (s.splitOn sep).map (fun x => if trim then x.trim else x)

/-- The `DnsPolicyConfig` value assembled by
`config.GetAppConfigFromEnvironment` (app_config.go lines 57-60); the other
configuration sections are not consulted by any claim. -/
def GetDnsPolicyConfigFromEnvironment (env : String → Option String) :
    DnsPolicyConfig :=
  { superAdminEmails :=
      GetEnvStringSet env "DNS_POLICY_SUPERADMIN_EMAILS" [] "," true,
    webhookApiKey := GetEnvString env "DNS_POLICY_WEBHOOK_API_KEY" "" }


instance : IsTotal PolicyRule (fun a b => a.id ≤ b.id) :=
  ⟨fun a b => Int.le_total a.id b.id⟩

instance : IsTrans PolicyRule (fun a b => a.id ≤ b.id) :=
  ⟨fun _ _ _ hab hbc => le_trans hab hbc⟩

/-- A stored rule whose filter only matches DHBW emails. -/
def ruleDhbw : PolicyRule :=
  { id := 1, zonePattern := "%u.users.dhbw.cloud", zoneSoa := "users.dhbw.cloud",
    targetUserFilter := "*@dhbw.de", description := "", createdAt := 0 }

/-- A configuration whose super-admin set holds one email. -/
def cfgSuper : DnsPolicyConfig :=
  { superAdminEmails := ["root@admin.example"], webhookApiKey := "k" }

/-- A one-rule store whose database works. -/
def storeOne : StoreState := { rows := [ruleDhbw], dbFails := false }

/-- A correctly authenticated webhook request asserting the super-admin
email. -/
def reqSuper : WebhookRequest :=
  { authHeader := some "Bearer k", body := some { email := "root@admin.example" } }

/-- An unauthenticated request: no Authorization header at all. -/
def reqNoAuth : WebhookRequest :=
  { authHeader := none, body := some { email := "alice@dhbw.de" } }

/-- A request with a well-formed bearer header carrying the wrong key. -/
def reqWrongKey : WebhookRequest :=
  { authHeader := some "Bearer wrong", body := some { email := "alice@dhbw.de" } }

/-- A 64-character email address consisting only of the letter `a`. -/
def emailLong : String := ⟨List.replicate 64 'a'⟩

/-- The caller-supplied update carrying new values for every column,
including the ones `PolicyUpdate` must not change. -/
def ruleNew : PolicyRule :=
  { id := 1, zonePattern := "new.pattern", zoneSoa := "other.soa",
    targetUserFilter := "*@new.example", description := "changed",
    createdAt := 99 }

/-- The store after updating `storeOne` with `ruleNew`: the selected columns
changed, `zoneSoa` and `createdAt` kept their stored values. -/
def storeOneUpdated : StoreState :=
  { rows := [{ id := 1, zonePattern := "new.pattern",
               zoneSoa := "users.dhbw.cloud",
               targetUserFilter := "*@new.example",
               description := "changed", createdAt := 0 }],
    dbFails := false }


end CloudAPI

namespace CloudAPI

theorem globMatchFuel_sound :
    ∀ (n : Nat) (p s : List Char), globMatchFuel n p s = true → GlobSem p s := by
  intro n
  induction n with
  | zero => intro p s h; simp [globMatchFuel] at h
  | succ n ih =>
    intro p s h
    match p, s with
    | [], t =>
      simp only [globMatchFuel, List.isEmpty_iff] at h
      subst h
      exact GlobSem.nil
    | p :: ps, [] =>
      simp only [globMatchFuel] at h
      split at h
      · next hp =>
        subst hp
        exact GlobSem.star (u := []) (v := []) rfl (ih ps [] h)
      · exact absurd h (by simp)
    | p :: ps, c :: cs =>
      simp only [globMatchFuel] at h
      split at h
      · next hp =>
        subst hp
        rcases (Bool.or_eq_true _ _).mp h with h1 | h2
        · exact GlobSem.star (u := []) (v := c :: cs) rfl (ih ps (c :: cs) h1)
        · have hsem := ih ('*' :: ps) cs h2
          cases hsem with
          | lit hc _ => exact absurd rfl hc
          | star hs hv =>
            rename_i u v
            exact GlobSem.star (u := c :: u) (v := v) (by rw [hs]; rfl) hv
      · next hp =>
        rcases (Bool.and_eq_true _ _).mp h with ⟨hpc, h2⟩
        have : p = c := by exact beq_iff_eq.mp hpc
        subst this
        exact GlobSem.lit hp (ih ps cs h2)

theorem globMatchFuel_complete :
    ∀ (n : Nat) (p s : List Char), GlobSem p s → p.length + s.length < n →
      globMatchFuel n p s = true := by
  intro n
  induction n with
  | zero => intro p s _ hlt; omega
  | succ n ih =>
    intro p s hsem hlt
    cases hsem with
    | nil => simp [globMatchFuel]
    | lit hc hps =>
      rename_i c p' s'
      simp only [globMatchFuel]
      rw [if_neg hc]
      simp only [List.length_cons] at hlt
      have := ih p' s' hps (by omega)
      simp [this]
    | star hs hv =>
      rename_i p' u v
      subst hs
      simp only [List.length_cons, List.length_append] at hlt
      cases u with
      | nil =>
        simp only [List.nil_append]
        cases v with
        | nil =>
          simp only [globMatchFuel, if_pos rfl]
          exact ih p' [] hv (by simp; omega)
        | cons c cs =>
          simp only [globMatchFuel, if_pos rfl]
          have := ih p' (c :: cs) hv (by simp at hlt ⊢; omega)
          simp [this]
      | cons a u' =>
        simp only [List.cons_append, globMatchFuel, if_pos rfl]
        have hsem2 : GlobSem ('*' :: p') (u' ++ v) := GlobSem.star rfl hv
        have h2 := ih ('*' :: p') (u' ++ v) hsem2
          (by simp only [List.length_cons, List.length_append]; simp at hlt; omega)
        simp [h2]

theorem globMatch_iff_GlobSem (g e : String) :
    globMatch g e = true ↔ GlobSem g.data e.data := by
  constructor
  · exact globMatchFuel_sound _ _ _
  · intro h
    exact globMatchFuel_complete _ _ _ h (by omega)

end CloudAPI

namespace CloudAPI

theorem replaceAllAux_no_occ (pat repl : List Char) :
    ∀ (n : Nat) (l : List Char), ¬ pat <:+: l → replaceAllAux pat repl n l = l := by
  intro n
  induction n with
  | zero => intro l _; rfl
  | succ n ih =>
    intro l hinf
    cases l with
    | nil => rfl
    | cons c cs =>
      simp only [replaceAllAux]
      rw [if_neg, ih cs (fun h => hinf (h.trans (List.suffix_cons c cs).isInfix))]
      rintro ⟨hpre, -⟩
      have hp2 := List.isPrefixOf_iff_prefix.mp hpre
      exact hinf hp2.isInfix

theorem replaceAllString_no_occ (s old new : String)
    (h : ¬ old.data <:+: s.data) : replaceAllString s old new = s := by
  unfold replaceAllString
  rw [replaceAllAux_no_occ old.data new.data s.data.length s.data h]

theorem cutPre_eq_some_iff (s pre t : String) :
    cutPre s pre = some t ↔ s = pre ++ t := by
  unfold cutPre
  by_cases hp : pre.data.isPrefixOf s.data
  · simp only [if_pos hp, Option.some_inj]
    obtain ⟨u, hu⟩ := List.isPrefixOf_iff_prefix.mp hp
    constructor
    · intro he
      subst he
      apply String.ext
      simp only [String.data_append]
      rw [← hu, List.drop_left]
    · intro he
      subst he
      apply String.ext
      simp only [String.data_append, List.drop_left]
  · simp only [if_neg hp]
    constructor
    · intro h; exact absurd h (by simp)
    · intro he
      subst he
      exfalso
      apply hp
      apply List.isPrefixOf_iff_prefix.mpr
      exact ⟨t.data, (String.data_append pre t).symm⟩

theorem verifyApiKey_eq_none_iff (h key : String) :
    verifyApiKey h key = none ↔ h = "Bearer " ++ key := by
  unfold verifyApiKey
  cases hc : cutPre h "Bearer " with
  | none =>
    simp only []
    constructor
    · intro habs; exact absurd habs (by simp)
    · intro he
      have := (cutPre_eq_some_iff h "Bearer " key).mpr he
      rw [hc] at this
      exact absurd this (by simp)
  | some tok =>
    have := (cutPre_eq_some_iff h "Bearer " tok).mp hc
    subst this
    by_cases ht : tok = key
    · subst ht; simp
    · simp only [if_neg, ne_eq, ht, not_false_iff, if_pos]
      constructor
      · intro habs; exact absurd habs (by simp)
      · intro he
        exact absurd (by
          have : tok = key := by
            have h2 := congrArg String.data he
            simp only [String.data_append] at h2
            exact String.ext (List.append_cancel_left h2)
          exact this) ht

end CloudAPI

namespace CloudAPI



theorem webhookFunc_auth_fail (key : String) (store : StoreState)
    (req : WebhookRequest) (msg : String)
    (h : verifyApiKey (req.authHeader.getD "") key = some msg) :
    webhookFunc key store req =
      { status := 401, errorMsg := some msg, zones := none } := by
  unfold webhookFunc
  rw [h]

theorem webhookFunc_ok (key : String) (store : StoreState)
    (req : WebhookRequest) (claims : UserClaims)
    (hauth : req.authHeader = some ("Bearer " ++ key))
    (hbody : req.body = some claims)
    (hdb : store.dbFails = false) :
    webhookFunc key store req =
      { status := 200, errorMsg := none,
        zones := some (((sortRules store.rows).filter
          (fun rule => globMatch rule.targetUserFilter claims.email)).map
            (renderZone (DnsMakeCompliant claims.email))) } := by
  unfold webhookFunc
  rw [hauth]
  simp only [Option.getD_some]
  rw [(verifyApiKey_eq_none_iff _ _).mpr rfl, hbody]
  unfold listUserRules PolicyGetAll
  rw [hdb]
  simp

theorem webhookFunc_store_fail (key : String) (store : StoreState)
    (req : WebhookRequest) (claims : UserClaims)
    (hauth : req.authHeader = some ("Bearer " ++ key))
    (hbody : req.body = some claims)
    (hdb : store.dbFails = true) :
    webhookFunc key store req =
      { status := 500, errorMsg := some "Failed to retrieve rules",
        zones := none } := by
  unfold webhookFunc
  rw [hauth]
  simp only [Option.getD_some]
  rw [(verifyApiKey_eq_none_iff _ _).mpr rfl, hbody]
  unfold listUserRules PolicyGetAll
  rw [hdb]
  simp

end CloudAPI

namespace CloudAPI



/-- C1 (counterexample): a super-admin email whose glob filter does not
match receives an empty zone list from the webhook even though the store
holds a rule, so the webhook does not return every stored rule for
super-admins. -/
theorem c1_counterexample :
    isSuperAdmin cfgSuper "root@admin.example" = true ∧
    storeOne.rows.length = 1 ∧
    webhookFunc cfgSuper.webhookApiKey storeOne reqSuper =
      { status := 200, errorMsg := none, zones := some [] } := by
  decide

/-- C1 (amended): membership in the super-admin set makes the match
operation return every stored rule, but the webhook entry point invokes the
matcher with `is_super_admin` hard-coded to `false`, so its zone list is
computed from the glob filter alone even for super-admin emails. -/
theorem c1_superadmin_match_but_not_webhook
    (cfg : DnsPolicyConfig) (store : StoreState) (claims : UserClaims)
    (hdb : store.dbFails = false)
    (hsa : isSuperAdmin cfg claims.email = true) :
    matchRules cfg store claims = .ok (sortRules store.rows) ∧
    ∀ req : WebhookRequest,
      req.authHeader = some ("Bearer " ++ cfg.webhookApiKey) →
      req.body = some claims →
      webhookFunc cfg.webhookApiKey store req =
        { status := 200, errorMsg := none,
          zones := some (((sortRules store.rows).filter
            (fun rule => globMatch rule.targetUserFilter claims.email)).map
              (renderZone (DnsMakeCompliant claims.email))) } := by
  constructor
  · unfold matchRules listUserRules PolicyGetAll
    rw [hsa, hdb]
    simp
  · intro req hauth hbody
    exact webhookFunc_ok _ _ _ _ hauth hbody hdb

theorem c1_witness :
    matchRules cfgSuper storeOne { email := "root@admin.example" } =
      .ok (sortRules storeOne.rows) ∧
    webhookFunc cfgSuper.webhookApiKey storeOne reqSuper =
      { status := 200, errorMsg := none,
        zones := some (((sortRules storeOne.rows).filter
          (fun rule => globMatch rule.targetUserFilter "root@admin.example")).map
            (renderZone (DnsMakeCompliant "root@admin.example"))) } := by
  have h := c1_superadmin_match_but_not_webhook cfgSuper storeOne
    { email := "root@admin.example" } rfl (by decide)
  exact ⟨h.1, h.2 reqSuper rfl rfl⟩



/-- C2 (counterexample): a request without an Authorization header and one
with a wrong key both get 401, but their response bodies carry different,
detail-bearing error messages, so the distinguishing detail is not
log-only. -/
theorem c2_counterexample :
    (webhookFunc "secret" storeOne reqNoAuth).status = 401 ∧
    (webhookFunc "secret" storeOne reqWrongKey).status = 401 ∧
    (webhookFunc "secret" storeOne reqNoAuth).errorMsg =
      some "missing or invalid Authorization Bearer header" ∧
    (webhookFunc "secret" storeOne reqWrongKey).errorMsg =
      some "invalid API key provided in Authorization header" ∧
    (webhookFunc "secret" storeOne reqNoAuth).errorMsg ≠
      (webhookFunc "secret" storeOne reqWrongKey).errorMsg := by
  decide

/-- C2 (amended): every webhook credential failure yields 401 with no zone
list, but the response's error field carries the specific verification
failure message — the same distinguishing detail that is logged — rather
than one generic message shared by both failure modes. -/
theorem c2_401_carries_detail (key : String) (store : StoreState)
    (req : WebhookRequest) (msg : String)
    (h : verifyApiKey (req.authHeader.getD "") key = some msg) :
    webhookFunc key store req =
      { status := 401, errorMsg := some msg, zones := none } :=
  webhookFunc_auth_fail key store req msg h

theorem c2_witness :
    webhookFunc "secret" storeOne reqNoAuth =
      { status := 401,
        errorMsg := some "missing or invalid Authorization Bearer header",
        zones := none } :=
  c2_401_carries_detail "secret" storeOne reqNoAuth
    "missing or invalid Authorization Bearer header" (by decide)

/-- C3: the shared-secret verifier succeeds exactly when the Authorization
header is the string `"Bearer "` followed by the configured key; for every
other header value (absent or differing) the webhook answers 401 with no
zone payload, and the 401 response is independent of the rule store, so no
resolution takes place. -/
theorem c3_verifier_iff (key : String) :
    (∀ h : String, verifyApiKey h key = none ↔ h = "Bearer " ++ key) ∧
    (∀ (store : StoreState) (req : WebhookRequest),
      req.authHeader.getD "" ≠ "Bearer " ++ key →
      (webhookFunc key store req).status = 401 ∧
      (webhookFunc key store req).zones = none ∧
      ∀ store' : StoreState,
        webhookFunc key store req = webhookFunc key store' req) := by
  refine ⟨fun h => verifyApiKey_eq_none_iff h key, ?_⟩
  intro store req hne
  cases hv : verifyApiKey (req.authHeader.getD "") key with
  | none => exact absurd ((verifyApiKey_eq_none_iff _ _).mp hv) hne
  | some msg =>
    rw [webhookFunc_auth_fail key store req msg hv]
    refine ⟨rfl, rfl, fun store' => ?_⟩
    rw [webhookFunc_auth_fail key store' req msg hv]

theorem c3_witness :
    (verifyApiKey "Bearer k" "k" = none ↔ ("Bearer k" : String) = "Bearer " ++ "k") ∧
    (webhookFunc "k" storeOne reqWrongKey).status = 401 := by
  have h := c3_verifier_iff "k"
  exact ⟨h.1 "Bearer k", (h.2 storeOne reqWrongKey (by decide)).1⟩

end CloudAPI

namespace CloudAPI

/-- C4: each rendered Zone Response carries `zone` equal to the rule's
`zonePattern` with every occurrence of `%u` replaced by the token derived
from the email, the pattern passes through unchanged when `%u` does not
occur in it, `zoneSoa` is copied unchanged from the matched rule, and every
zone list the webhook returns consists exactly of such renderings. -/
theorem c4_render (rule : PolicyRule) (claims : UserClaims) :
    (renderZone (DnsMakeCompliant claims.email) rule).zone =
      replaceAllString rule.zonePattern "%u" (DnsMakeCompliant claims.email) ∧
    (¬ "%u".data <:+: rule.zonePattern.data →
      (renderZone (DnsMakeCompliant claims.email) rule).zone = rule.zonePattern) ∧
    (renderZone (DnsMakeCompliant claims.email) rule).zoneSoa = rule.zoneSoa ∧
    ∀ (key : String) (store : StoreState) (req : WebhookRequest)
      (zs : List ZoneResponse),
      req.body = some claims →
      (webhookFunc key store req).zones = some zs →
      ∀ z ∈ zs, ∃ r : PolicyRule,
        z = renderZone (DnsMakeCompliant claims.email) r := by
  refine ⟨rfl, ?_, rfl, ?_⟩
  · intro h
    exact replaceAllString_no_occ _ _ _ h
  · intro key store req zs hbody hz z hmem
    unfold webhookFunc at hz
    split at hz
    · simp at hz
    · split at hz
      · next hb => rw [hbody] at hb; exact absurd hb (by simp)
      · next uc hb =>
        rw [hbody] at hb
        have huc : uc = claims := by injection hb with h2; exact h2.symm
        subst huc
        split at hz
        · simp at hz
        · next rules hl =>
          simp only [Option.some_inj] at hz
          subst hz
          obtain ⟨r, _, hr⟩ := List.mem_map.mp hmem
          exact ⟨r, hr.symm⟩

theorem c4_witness :
    (renderZone (DnsMakeCompliant "Alice@DHBW.de") ruleDhbw).zoneSoa =
      ruleDhbw.zoneSoa ∧
    (renderZone (DnsMakeCompliant "anyone") { ruleDhbw with
        zonePattern := "project.dhbw.cloud" }).zone = "project.dhbw.cloud" := by
  refine ⟨(c4_render ruleDhbw { email := "Alice@DHBW.de" }).2.2.1, ?_⟩
  exact (c4_render { ruleDhbw with zonePattern := "project.dhbw.cloud" }
    { email := "anyone" }).2.1 (by decide)

/-- C5: the modelled glob matcher agrees with the spec's glob semantics
(`*` matches any run of characters, every other character matches itself,
case-sensitively, anchored at both ends), a rule is in the matcher's output
exactly when it is stored and its filter glob-matches the email, and the
spec's example emails behave as stated. -/
theorem c5_glob_match :
    (∀ g e : String, globMatch g e = true ↔ GlobSem g.data e.data) ∧
    (∀ (store : StoreState) (claims : UserClaims) (rules : List PolicyRule)
        (rule : PolicyRule),
      listUserRules store claims false = .ok rules →
      (rule ∈ rules ↔ rule ∈ sortRules store.rows ∧
        GlobSem rule.targetUserFilter.data claims.email.data)) ∧
    globMatch "*@dhbw.de" "alice@dhbw.de" = true ∧
    globMatch "*@dhbw.de" "alice@dhbw.de.evil.com" = false := by
  refine ⟨globMatch_iff_GlobSem, ?_, by decide, by decide⟩
  intro store claims rules rule hl
  unfold listUserRules PolicyGetAll at hl
  by_cases hdb : store.dbFails
  · rw [if_pos hdb] at hl
    exact absurd hl (by simp)
  · rw [if_neg hdb] at hl
    simp only [Except.ok.injEq] at hl
    subst hl
    rw [List.mem_filter]
    simp [globMatch_iff_GlobSem]

theorem c5_witness :
    ruleDhbw ∈ (sortRules storeOne.rows) ∧
    GlobSem "*@dhbw.de".data "alice@dhbw.de".data := by
  have h := (c5_glob_match.2.1 storeOne { email := "alice@dhbw.de" }
    ((sortRules storeOne.rows).filter
      (fun rule => false || globMatch rule.targetUserFilter "alice@dhbw.de"))
    ruleDhbw rfl).mp (by decide)
  exact ⟨h.1, h.2⟩

end CloudAPI

namespace CloudAPI



/-- C6 (counterexample): for the 64-character email `aaa…a` the derived
token is that same 64-character string, so the derived token is not always
a label of at most 63 characters. -/
theorem c6_counterexample :
    DnsMakeCompliant emailLong = emailLong ∧
    (DnsMakeCompliant emailLong).length = 64 ∧
    ¬ (DnsMakeCompliant emailLong).length ≤ 63 := by
  decide

/-- C6 (amended): the token is the email lower-cased with every character
outside `[a-z0-9-]` replaced by `-` in a single pass with no collapsing,
hence length-preserving: it is non-empty exactly when the email is, and at
most 63 characters exactly when the email is; on the spec's example it
renders `"Alice@DHBW.de"` with pattern `"%u.users.dhbw.cloud"` to
`"alice-dhbw-de.users.dhbw.cloud"`. -/
theorem c6_dns_token (e : String) :
    DnsMakeCompliant e = ⟨e.data.map dnsLabelChar⟩ ∧
    (DnsMakeCompliant e).length = e.length ∧
    (∀ c ∈ (DnsMakeCompliant e).data,
      ('a' ≤ c ∧ c ≤ 'z') ∨ ('0' ≤ c ∧ c ≤ '9') ∨ c = '-') ∧
    (e ≠ "" → DnsMakeCompliant e ≠ "") ∧
    (e.length ≤ 63 → (DnsMakeCompliant e).length ≤ 63) ∧
    replaceAllString "%u.users.dhbw.cloud" "%u" (DnsMakeCompliant "Alice@DHBW.de") =
      "alice-dhbw-de.users.dhbw.cloud" := by
  have hlen : (DnsMakeCompliant e).length = e.length := by
    show (e.data.map dnsLabelChar).length = e.data.length
    exact List.length_map _ _
  refine ⟨rfl, hlen, ?_, ?_, ?_, by decide⟩
  · intro c hc
    simp only [DnsMakeCompliant, List.mem_map] at hc
    obtain ⟨a, -, rfl⟩ := hc
    simp only [dnsLabelChar]
    split
    · next h => exact h
    · exact Or.inr (Or.inr rfl)
  · intro hne habs
    apply hne
    have h2 := congrArg String.data habs
    simp only [DnsMakeCompliant] at h2
    have : e.data = [] := List.map_eq_nil_iff.mp h2
    exact String.ext this
  · intro h63
    rw [hlen]; exact h63

theorem c6_witness :
    DnsMakeCompliant "Alice@DHBW.de" ≠ "" ∧
    (DnsMakeCompliant "Alice@DHBW.de").length ≤ 63 := by
  have h := c6_dns_token "Alice@DHBW.de"
  exact ⟨h.2.2.2.1 (by decide), h.2.2.2.2.1 (by decide)⟩

/-- C7: when the store read fails, an authenticated webhook request with a
well-formed body is answered with status 500 and no zone payload — never
with a 200 empty list. -/
theorem c7_store_failure (key : String) (store : StoreState)
    (req : WebhookRequest) (claims : UserClaims)
    (hdb : store.dbFails = true)
    (hauth : req.authHeader = some ("Bearer " ++ key))
    (hbody : req.body = some claims) :
    webhookFunc key store req =
      { status := 500, errorMsg := some "Failed to retrieve rules",
        zones := none } ∧
    (webhookFunc key store req).status ≠ 200 ∧
    (webhookFunc key store req).zones = none := by
  have h := webhookFunc_store_fail key store req claims hauth hbody hdb
  rw [h]
  exact ⟨rfl, by decide, rfl⟩

theorem c7_witness :
    webhookFunc "k" { rows := [ruleDhbw], dbFails := true }
      { authHeader := some "Bearer k", body := some { email := "alice@dhbw.de" } } =
      { status := 500, errorMsg := some "Failed to retrieve rules",
        zones := none } :=
  (c7_store_failure "k" { rows := [ruleDhbw], dbFails := true }
    { authHeader := some "Bearer k", body := some { email := "alice@dhbw.de" } }
    { email := "alice@dhbw.de" } rfl (by decide) rfl).1

end CloudAPI

namespace CloudAPI

/-- C8: `PolicyGetAll` returns the stored rules ordered ascending by id, the
matched rule list inherits that order, and the webhook's zone list is
positional: its i-th entry is rendered from the i-th matched rule. -/
theorem c8_ordering (store : StoreState) (hdb : store.dbFails = false) :
    PolicyGetAll store = .ok (sortRules store.rows) ∧
    List.Sorted (fun a b : PolicyRule => a.id ≤ b.id) (sortRules store.rows) ∧
    ∀ (key : String) (req : WebhookRequest) (claims : UserClaims)
      (rules : List PolicyRule) (zs : List ZoneResponse),
      req.body = some claims →
      listUserRules store claims false = .ok rules →
      (webhookFunc key store req).zones = some zs →
      List.Sorted (fun a b : PolicyRule => a.id ≤ b.id) rules ∧
      zs.length = rules.length ∧
      ∀ (i : Nat) (hi : i < rules.length) (hz : i < zs.length),
        zs.get ⟨i, hz⟩ =
          renderZone (DnsMakeCompliant claims.email) (rules.get ⟨i, hi⟩) := by
  refine ⟨by unfold PolicyGetAll; rw [hdb]; simp, ?_, ?_⟩
  · exact List.sorted_insertionSort _ store.rows
  · intro key req claims rules zs hbody hl hz
    have hrules : rules = (sortRules store.rows).filter
        (fun rule => globMatch rule.targetUserFilter claims.email) := by
      unfold listUserRules PolicyGetAll at hl
      rw [hdb] at hl
      simp at hl
      exact hl.symm
    have hsorted : List.Sorted (fun a b : PolicyRule => a.id ≤ b.id) rules := by
      rw [hrules]
      exact List.Pairwise.sublist (List.filter_sublist _)
        (List.sorted_insertionSort _ store.rows)
    have hzs : zs = rules.map (renderZone (DnsMakeCompliant claims.email)) := by
      unfold webhookFunc at hz
      split at hz
      · simp at hz
      · split at hz
        · next hb => rw [hbody] at hb; exact absurd hb (by simp)
        · next uc hb =>
          rw [hbody] at hb
          have huc : uc = claims := by injection hb with h2; exact h2.symm
          subst huc
          split at hz
          · next e he => rw [hl] at he; exact absurd he (by simp)
          · next rules2 hl2 =>
            rw [hl] at hl2
            simp only [Except.ok.injEq] at hl2
            subst hl2
            simp only [Option.some_inj] at hz
            exact hz.symm
    refine ⟨hsorted, by rw [hzs, List.length_map], ?_⟩
    intro i hi hz2
    subst hzs
    simp only [List.get_eq_getElem, List.getElem_map]

theorem c8_witness :
    PolicyGetAll storeOne = .ok (sortRules storeOne.rows) ∧
    List.Sorted (fun a b : PolicyRule => a.id ≤ b.id) (sortRules storeOne.rows) :=
  ⟨(c8_ordering storeOne rfl).1, (c8_ordering storeOne rfl).2.1⟩

/-- C9: a successful `PolicyUpdate` changes at most the `zonePattern`,
`targetUserFilter` and `description` columns of the row with the rule's id,
and leaves `id`, `zoneSoa` and `createdAt` of every stored row unchanged
even though the caller supplied values for them. -/
theorem c9_update_frame (s : StoreState) (rule : PolicyRule)
    (s' : StoreState) (ret : PolicyRule)
    (h : PolicyUpdate s rule = .ok (s', ret)) :
    s'.rows.length = s.rows.length ∧
    ∀ (i : Nat) (hi : i < s.rows.length) (hi' : i < s'.rows.length),
      (s'.rows.get ⟨i, hi'⟩).id = (s.rows.get ⟨i, hi⟩).id ∧
      (s'.rows.get ⟨i, hi'⟩).zoneSoa = (s.rows.get ⟨i, hi⟩).zoneSoa ∧
      (s'.rows.get ⟨i, hi'⟩).createdAt = (s.rows.get ⟨i, hi⟩).createdAt ∧
      ((s.rows.get ⟨i, hi⟩).id = rule.id →
        (s'.rows.get ⟨i, hi'⟩).zonePattern = rule.zonePattern ∧
        (s'.rows.get ⟨i, hi'⟩).targetUserFilter = rule.targetUserFilter ∧
        (s'.rows.get ⟨i, hi'⟩).description = rule.description) ∧
      ((s.rows.get ⟨i, hi⟩).id ≠ rule.id →
        s'.rows.get ⟨i, hi'⟩ = s.rows.get ⟨i, hi⟩) := by
  unfold PolicyUpdate at h
  split at h
  · exact absurd h (by simp)
  · split at h
    · simp only [Except.ok.injEq, Prod.mk.injEq] at h
      obtain ⟨hs', -⟩ := h
      have hrows : s'.rows = s.rows.map (applyPolicyUpdate rule) := by
        rw [← hs']
      constructor
      · rw [hrows, List.length_map]
      · intro i hi hi'
        have hget : s'.rows.get ⟨i, hi'⟩ =
            applyPolicyUpdate rule (s.rows.get ⟨i, hi⟩) := by
          have : s'.rows.get ⟨i, hi'⟩ = s'.rows[i] := rfl
          rw [this]
          simp only [hrows, List.getElem_map]
          rfl
        rw [hget]
        unfold applyPolicyUpdate
        split
        · next hid =>
          exact ⟨rfl, rfl, rfl, fun _ => ⟨rfl, rfl, rfl⟩,
            fun hne => absurd hid hne⟩
        · next hid =>
          exact ⟨rfl, rfl, rfl, fun heq => absurd heq hid, fun _ => rfl⟩
    · exact absurd h (by simp)

theorem c9_witness :
    PolicyUpdate storeOne ruleNew = .ok (storeOneUpdated, ruleNew) ∧
    storeOneUpdated.rows.length = storeOne.rows.length := by
  refine ⟨rfl, ?_⟩
  exact (c9_update_frame storeOne ruleNew storeOneUpdated ruleNew rfl).1

/-- C10: with the webhook API key environment variable unset the configured
key defaults to the empty string, a request whose Authorization header is
exactly `"Bearer "` then passes verification, and resolution proceeds to a
200 response. -/
theorem c10_empty_api_key (env : String → Option String)
    (henv : env "DNS_POLICY_WEBHOOK_API_KEY" = none) :
    (GetDnsPolicyConfigFromEnvironment env).webhookApiKey = "" ∧
    verifyApiKey "Bearer " (GetDnsPolicyConfigFromEnvironment env).webhookApiKey
      = none ∧
    ∀ (store : StoreState) (req : WebhookRequest) (claims : UserClaims),
      req.authHeader = some "Bearer " → req.body = some claims →
      store.dbFails = false →
      (webhookFunc (GetDnsPolicyConfigFromEnvironment env).webhookApiKey
        store req).status = 200 := by
  have hkey : (GetDnsPolicyConfigFromEnvironment env).webhookApiKey = "" := by
    simp [GetDnsPolicyConfigFromEnvironment, GetEnvString, henv]
  refine ⟨hkey, by rw [hkey]; decide, ?_⟩
  intro store req claims hauth hbody hdb
  rw [hkey]
  have hauth2 : req.authHeader = some ("Bearer " ++ "") := by
    rw [hauth]; decide
  rw [webhookFunc_ok "" store req claims hauth2 hbody hdb]

theorem c10_witness :
    (GetDnsPolicyConfigFromEnvironment (fun _ => none)).webhookApiKey = "" ∧
    (webhookFunc
      (GetDnsPolicyConfigFromEnvironment (fun _ => none)).webhookApiKey
      storeOne
      { authHeader := some "Bearer ",
        body := some { email := "alice@dhbw.de" } }).status = 200 := by
  have h := c10_empty_api_key (fun _ => none) rfl
  exact ⟨h.1, h.2.2 storeOne
    { authHeader := some "Bearer ", body := some { email := "alice@dhbw.de" } }
    { email := "alice@dhbw.de" } rfl rfl rfl⟩

end CloudAPI
